import Mathlib

/-!
# Unicorn Factory — tokenomics ledger engine, shallow embedding

Shallow embedding of the server code in `src/server/dist/index.js` (the
bonding-curve quote engine, the project registry with its buy/sell
transitions, the holdings ledger and the offer book) and of the milestone
release handler from the full server source embedded in
`src/DEPLOYMENT_GUIDE.md`.

Modelling conventions:
* funds amounts (JS floating-point numbers treated as exact reals by the
  spec) are embedded as rationals `ℚ`;
* token counts (integers in the spec's data model) are `ℕ`; the JS
  `Math.max(0, a - b)` clamp on naturals is `Nat` truncated subtraction;
* the in-memory `Map`s are association lists keyed by user id (holdings)
  and a plain list indexed by creation order (offers — `nanoid` is assumed
  to always produce fresh ids, so an offer id is modelled as the offer's
  position in the list);
* the engine is modelled per project: every handler first looks up one
  project and touches only that project's data, so a single-project state
  loses no generality for the claims considered here;
* each handler threads the state in the order the code mutates it and
  returns the threaded state together with `Except ApiError payload`,
  mirroring the HTTP error responses.
-/

namespace UnicornFactory

/-- `BASE_PRICE = 0.01` from the source. -/
def BASE_PRICE : ℚ := 1 / 100

/-- `SLOPE = 0.0001` from the source. -/
def SLOPE : ℚ := 1 / 10000

/-- `FUNDING_CAP = 100000` from the source. -/
def FUNDING_CAP : ℚ := 100000

/-- `priceAtSupply(supply) = BASE_PRICE + SLOPE * supply`. -/
def priceAtSupply (supply : ℕ) : ℚ := BASE_PRICE + SLOPE * supply

/-- The price function on an integer supply counter, used by the sell walk
whose running counter is a JS number that can reach `-1`. -/
def priceAtSupplyZ (supply : ℤ) : ℚ := BASE_PRICE + SLOPE * supply

/-- The `while (budget > 0 && steps < 5000)` loop of `buyTokensQuote`:
each iteration buys one token at the current marginal price when the
budget affords it, else breaks.  `fuel` is the remaining step allowance
(the loop's `steps` counter increments exactly once per token bought). -/
def buyGo (budget : ℚ) (s : ℕ) : ℕ → ℕ
  | 0 => 0
  | fuel + 1 =>
    if 0 < budget then
      if priceAtSupply s ≤ budget then buyGo (budget - priceAtSupply s) (s + 1) fuel + 1
      else 0
    else 0

/-- `buyTokensQuote(currentSupply, amountIn).tokensOut` from the source. -/
def buyTokensQuote (currentSupply : ℕ) (amountIn : ℚ) : ℕ :=
  buyGo amountIn currentSupply 5000

/-- The `while (t > 0 && s >= 0 && steps < 5000)` loop of
`sellTokensQuote`: sums `priceAtSupply(s)` walking `s` downward; `s` is an
integer that the code lets reach `-1`, which ends the walk. -/
def sellGo : ℤ → ℕ → ℕ → ℚ
  | _, _, 0 => 0
  | _, 0, _ => 0
  | s, t + 1, fuel + 1 =>
    if 0 ≤ s then priceAtSupplyZ s + sellGo (s - 1) t fuel else 0

/-- `sellTokensQuote(currentSupply, tokensIn).amountOut` from the source:
the walk starts at `Math.max(0, currentSupply - 1)`. -/
def sellTokensQuote (currentSupply : ℕ) (tokensIn : ℕ) : ℚ :=
  sellGo (max 0 ((currentSupply : ℤ) - 1)) tokensIn 5000

/-- `costFrom s t` — total cost of `t` tokens bought one at a time at the
walked prices `priceAtSupply s, priceAtSupply (s+1), …`; the reference
quantity of the spec's quote-accuracy property. -/
def costFrom (s : ℕ) : ℕ → ℚ
  | 0 => 0
  | t + 1 => priceAtSupply s + costFrom (s + 1) t

/-! ## Data model -/

/-- Project record: curve state plus the metadata fields the handlers
never touch (kept so that frame claims are meaningful). -/
structure Project where
  id : String
  founderId : String
  name : String
  supply : ℕ
  reserve : ℚ
  capReached : Bool
  deriving DecidableEq, Repr

/-- Offer status; `opened` embeds the source's `'open'` literal. -/
inductive OfferStatus where
  | opened
  | filled
  deriving DecidableEq, Repr

/-- A secondary-market sell offer (its id is its index in the offer
list). -/
structure Offer where
  sellerId : String
  pricePerToken : ℚ
  amount : ℕ
  status : OfferStatus
  deriving DecidableEq, Repr

/-- Engine state for one project: the project record, the holdings ledger
(association list userId ↦ balance) and the offer book. -/
structure EState where
  project : Project
  holdings : List (String × ℕ)
  offers : List Offer
  deriving DecidableEq, Repr

/-- The typed failures of §7 that the embedded handlers can produce. -/
inductive ApiError where
  | notFound
  | invalidInput
  | invalidAmount
  | capReached
  | quoteTooSmall
  | insufficientBalance
  | offerNotOpen
  | forbidden
  | alreadyReleased
  | notApproved
  deriving DecidableEq, Repr

/-- `holdings.get(key)` with the code's `|| { balance: 0 }` default. -/
def hGet (hs : List (String × ℕ)) (u : String) : ℕ :=
  match hs with
  | [] => 0
  | (k, v) :: t => if k = u then v else hGet t u

/-- `holdings.set(key, h)`: replace the first binding of the key, or
append a fresh one. -/
def hSet (hs : List (String × ℕ)) (u : String) (b : ℕ) : List (String × ℕ) :=
  match hs with
  | [] => [(u, b)]
  | (k, v) :: t => if k = u then (u, b) :: t else (k, v) :: hSet t u b

/-! ## Operation handlers

Each handler mirrors one HTTP handler of the source, in the exact order in
which the code validates and mutates.  The first component of the result
is the state as left behind by the handler (identical to the input state on
every error path, since in the code every validation precedes every write);
the second is the response. -/

/-- `POST /projects` success path: fresh project with the founder's
initial 100-token allocation (`supply += 100` and the founder's Holding
credited by 100). -/
def createProject (founderId nm : String) : EState :=
  { project :=
      { id := "p1", founderId := founderId, name := nm,
        supply := 100, reserve := 0, capReached := false },
    holdings := [(founderId, 100)],
    offers := [] }

/-- `POST /projects` including its validation (`name, summary, plan
required`); threaded over an optional prior state so that the
error path visibly leaves the store untouched. -/
def createProjectOp (founderId nm summary plan : String) (st : Option EState) :
    Option EState × Except ApiError EState :=
  if nm = "" ∨ summary = "" ∨ plan = "" then (st, .error .invalidInput)
  else
    let s := createProject founderId nm
    (some s, .ok s)

/-- `POST /projects/:id/buy`. -/
def buyOp (userId : String) (amount : ℚ) (s : EState) :
    EState × Except ApiError (Project × ℕ) :=
  if s.project.capReached then (s, .error .capReached)
  else if amount ≤ 0 then (s, .error .invalidAmount)
  else
    let tokensOut := buyTokensQuote s.project.supply amount
    if tokensOut ≤ 0 then (s, .error .quoteTooSmall)
    else
      let reserve1 := s.project.reserve + amount
      let p1 : Project :=
        { s.project with
          supply := s.project.supply + tokensOut,
          reserve := reserve1,
          capReached := if FUNDING_CAP ≤ reserve1 then true else s.project.capReached }
      let holdings1 := hSet s.holdings userId (hGet s.holdings userId + tokensOut)
      ({ s with project := p1, holdings := holdings1 }, .ok (p1, tokensOut))

/-- `POST /projects/:id/sell`.  `Math.max(0, supply - tokens)` is `Nat`
truncated subtraction. -/
def sellOp (userId : String) (tokens : ℕ) (s : EState) :
    EState × Except ApiError (Project × ℚ) :=
  if tokens ≤ 0 then (s, .error .invalidAmount)
  else if hGet s.holdings userId < tokens then (s, .error .insufficientBalance)
  else
    let amountOut := sellTokensQuote s.project.supply tokens
    let p1 : Project :=
      { s.project with
        supply := s.project.supply - tokens,
        reserve := max 0 (s.project.reserve - amountOut) }
    let holdings1 := hSet s.holdings userId (hGet s.holdings userId - tokens)
    ({ s with project := p1, holdings := holdings1 }, .ok (p1, amountOut))

/-- `POST /projects/:id/offers`: escrow by debiting the seller, then
append the open offer. -/
def createOfferOp (userId : String) (pricePerToken : ℚ) (amount : ℕ) (s : EState) :
    EState × Except ApiError Offer :=
  if pricePerToken ≤ 0 ∨ amount ≤ 0 then (s, .error .invalidAmount)
  else if hGet s.holdings userId < amount then (s, .error .insufficientBalance)
  else
    let holdings1 := hSet s.holdings userId (hGet s.holdings userId - amount)
    let offer : Offer :=
      { sellerId := userId, pricePerToken := pricePerToken,
        amount := amount, status := .opened }
    ({ s with holdings := holdings1, offers := s.offers ++ [offer] }, .ok offer)

/-- `POST /projects/:id/offers/:offerId/fill`.  `take = Math.max(0,
Math.min(offer.amount, amount))`; the `max 0` is implicit in `ℕ`. -/
def fillOp (buyerId : String) (offerId : ℕ) (reqAmount : ℕ) (s : EState) :
    EState × Except ApiError Offer :=
  match s.offers.get? offerId with
  | none => (s, .error .notFound)
  | some offer =>
    if offer.status ≠ .opened ∨ offer.amount ≤ 0 then (s, .error .offerNotOpen)
    else
      let take := min offer.amount reqAmount
      if take ≤ 0 then (s, .error .invalidAmount)
      else
        let holdings1 := hSet s.holdings buyerId (hGet s.holdings buyerId + take)
        let offer1 : Offer :=
          { offer with
            amount := offer.amount - take,
            status := if offer.amount - take = 0 then .filled else offer.status }
        ({ s with holdings := holdings1, offers := s.offers.set offerId offer1 },
         .ok offer1)

/-! ## Milestone release (from the server source in DEPLOYMENT_GUIDE.md) -/

/-- A withdrawal proposal. -/
structure Proposal where
  amount : ℚ
  approvals : ℕ
  rejections : ℕ
  released : Bool
  deriving DecidableEq, Repr

/-- Milestone status. -/
inductive MilestoneStatus where
  | pending
  | released
  deriving DecidableEq, Repr

/-- A milestone. -/
structure Milestone where
  title : String
  amount : ℚ
  status : MilestoneStatus
  deriving DecidableEq, Repr

/-- `POST /projects/:id/proposals/:proposalId/release` (after the
project/proposal/milestone lookups have succeeded, which is how the claim
addresses it). -/
def releaseOp (callerId : String) (p : Project) (pr : Proposal) (m : Milestone) :
    Except ApiError (Project × Proposal × Milestone × ℚ) :=
  if p.founderId ≠ callerId then .error .forbidden
  else if pr.released then .error .alreadyReleased
  else if pr.approvals < 1 ∨ pr.approvals ≤ pr.rejections then .error .notApproved
  else
    let amount := min pr.amount p.reserve
    let reserve1 := max 0 (p.reserve - amount)
    let p1 : Project :=
      { p with
        reserve := reserve1,
        capReached := if reserve1 < FUNDING_CAP then false else p.capReached }
    .ok (p1, { pr with released := true }, { m with status := .released }, amount)

/-! ## Operation sequences -/

/-- One engine operation on a project (the caller id is the first
argument of each constructor). -/
inductive Op where
  | buy (userId : String) (amount : ℚ)
  | sell (userId : String) (tokens : ℕ)
  | createOffer (userId : String) (pricePerToken : ℚ) (amount : ℕ)
  | fill (userId : String) (offerId : ℕ) (amount : ℕ)
  deriving DecidableEq, Repr

/-- The state left behind by one operation (unchanged when the operation
fails). -/
def step (s : EState) : Op → EState
  | .buy u f => (buyOp u f s).1
  | .sell u tk => (sellOp u tk s).1
  | .createOffer u ppt a => (createOfferOp u ppt a s).1
  | .fill u oid a => (fillOp u oid a s).1

/-- The response of one operation, payload erased. -/
def stepResult (s : EState) : Op → Except ApiError Unit
  | .buy u f => (buyOp u f s).2.map fun _ => ()
  | .sell u tk => (sellOp u tk s).2.map fun _ => ()
  | .createOffer u ppt a => (createOfferOp u ppt a s).2.map fun _ => ()
  | .fill u oid a => (fillOp u oid a s).2.map fun _ => ()

/-- Run a finite sequence of operations. -/
def run (s : EState) : List Op → EState
  | [] => s
  | op :: ops => run (step s op) ops

/-! ## Conservation quantities -/

/-- Total of all ledger balances. -/
def sumBalances (hs : List (String × ℕ)) : ℕ := (hs.map Prod.snd).sum

/-- Tokens escrowed by an offer while it is open. -/
def openAmount (o : Offer) : ℕ := if o.status = .opened then o.amount else 0

/-- Total tokens escrowed in open offers. -/
def sumOpenOffers (os : List Offer) : ℕ := (os.map openAmount).sum

/-- The conservation invariant of §8: holdings plus open escrow equal the
project's supply. -/
def conserved (s : EState) : Prop :=
  sumBalances s.holdings + sumOpenOffers s.offers = s.project.supply

/-! ## Concrete states for the worked examples -/

/-- A project state with supply 10000 (marginal price 1.01), empty ledger
and offer book. -/
def demoState : EState :=
  { project :=
      { id := "p1", founderId := "fd", name := "demo",
        supply := 10000, reserve := 0, capReached := false },
    holdings := [],
    offers := [] }

/-- `demoState` with the funding cap already reached. -/
def demoStateCapped : EState :=
  { demoState with project := { demoState.project with capReached := true } }

/-- `demoState` with the reserve just below the funding cap. -/
def demoStateNearCap : EState :=
  { demoState with project := { demoState.project with reserve := 99999 } }

/-! ## Quote-engine lemmas -/

theorem priceAtSupply_pos (s : ℕ) : 0 < priceAtSupply s := by
  unfold priceAtSupply BASE_PRICE SLOPE
  positivity

theorem priceAtSupply_succ (s : ℕ) :
    priceAtSupply (s + 1) = priceAtSupply s + SLOPE := by
  unfold priceAtSupply
  push_cast
  ring

theorem priceAtSupplyZ_natCast (s : ℕ) :
    priceAtSupplyZ (s : ℤ) = priceAtSupply s := by
  unfold priceAtSupplyZ priceAtSupply
  push_cast
  ring

theorem costFrom_zero (s : ℕ) : costFrom s 0 = 0 := rfl

theorem costFrom_succ (s t : ℕ) :
    costFrom s (t + 1) = priceAtSupply s + costFrom (s + 1) t := rfl

theorem costFrom_nonneg (t : ℕ) : ∀ s : ℕ, 0 ≤ costFrom s t := by
  induction t with
  | zero => intro s; simp [costFrom_zero]
  | succ t ih =>
    intro s
    rw [costFrom_succ]
    have := priceAtSupply_pos s
    have := ih (s + 1)
    linarith

theorem costFrom_succ_right (t : ℕ) : ∀ s : ℕ,
    costFrom s (t + 1) = costFrom s t + priceAtSupply (s + t) := by
  induction t with
  | zero => intro s; simp [costFrom_succ, costFrom_zero]
  | succ t ih =>
    intro s
    rw [costFrom_succ, ih (s + 1), costFrom_succ]
    have harg : s + 1 + t = s + (t + 1) := by omega
    rw [harg]
    ring

/-- Closed form of the walked cost: `t` tokens from supply `s` cost
`t·price(s) + (t(t−1)/2)·SLOPE`. -/
theorem costFrom_closed (t : ℕ) : ∀ s : ℕ,
    costFrom s t = (t : ℚ) * priceAtSupply s + ((t : ℚ) * ((t : ℚ) - 1) / 2) * SLOPE := by
  induction t with
  | zero => intro s; simp [costFrom_zero]
  | succ t ih =>
    intro s
    rw [costFrom_succ, ih (s + 1), priceAtSupply_succ]
    push_cast
    ring

theorem buyGo_zero (budget : ℚ) (s : ℕ) : buyGo budget s 0 = 0 := rfl

theorem buyGo_succ (budget : ℚ) (s fuel : ℕ) :
    buyGo budget s (fuel + 1) =
      if 0 < budget then
        if priceAtSupply s ≤ budget then buyGo (budget - priceAtSupply s) (s + 1) fuel + 1
        else 0
      else 0 := rfl

theorem buyGo_le_fuel (fuel : ℕ) : ∀ (budget : ℚ) (s : ℕ), buyGo budget s fuel ≤ fuel := by
  induction fuel with
  | zero => intro budget s; simp [buyGo_zero]
  | succ fuel ih =>
    intro budget s
    rw [buyGo_succ]
    split
    · split
      · have := ih (budget - priceAtSupply s) (s + 1)
        omega
      · omega
    · omega

/-- The tokens bought by the walk cost no more than the budget. -/
theorem buyGo_cost (fuel : ℕ) : ∀ (budget : ℚ) (s : ℕ), 0 ≤ budget →
    costFrom s (buyGo budget s fuel) ≤ budget := by
  induction fuel with
  | zero => intro budget s h; simpa [buyGo_zero, costFrom_zero] using h
  | succ fuel ih =>
    intro budget s h
    rw [buyGo_succ]
    split
    · split
      · rename_i hp
        rw [costFrom_succ]
        have hrec := ih (budget - priceAtSupply s) (s + 1) (by linarith)
        linarith
      · simpa [costFrom_zero] using h
    · simpa [costFrom_zero] using h

/-- When the walk stops before exhausting its fuel, one more token would
have exceeded the budget. -/
theorem buyGo_maximal (fuel : ℕ) : ∀ (budget : ℚ) (s : ℕ),
    buyGo budget s fuel < fuel →
    budget < costFrom s (buyGo budget s fuel + 1) := by
  induction fuel with
  | zero => intro budget s h; omega
  | succ fuel ih =>
    intro budget s h
    by_cases hpos : 0 < budget
    · by_cases hp : priceAtSupply s ≤ budget
      · rw [buyGo_succ, if_pos hpos, if_pos hp] at h ⊢
        have hrec := ih (budget - priceAtSupply s) (s + 1) (by omega)
        rw [costFrom_succ]
        linarith
      · rw [buyGo_succ, if_pos hpos, if_neg hp]
        push_neg at hp
        rw [costFrom_succ]
        have := costFrom_nonneg 0 (s + 1)
        linarith
    · rw [buyGo_succ, if_neg hpos]
      push_neg at hpos
      rw [costFrom_succ]
      have := priceAtSupply_pos s
      have := costFrom_nonneg 0 (s + 1)
      linarith

/-- Determination: the walk's result is the unique `t ≤ fuel` whose cost
fits the budget while `t+1` tokens exceed it (or `t` equals the fuel). -/
theorem buyGo_det (fuel : ℕ) : ∀ (budget : ℚ) (s t : ℕ),
    t ≤ fuel → costFrom s t ≤ budget →
    (budget < costFrom s (t + 1) ∨ t = fuel) →
    buyGo budget s fuel = t := by
  induction fuel with
  | zero => intro budget s t ht _ _; rw [buyGo_zero]; omega
  | succ fuel ih =>
    intro budget s t ht hcost hmax
    match t with
    | 0 =>
      have hlt : budget < priceAtSupply s := by
        rcases hmax with hmax | hmax
        · rw [costFrom_succ] at hmax
          simpa [costFrom_zero] using hmax
        · omega
      rw [buyGo_succ]
      split
      · split
        · rename_i hp
          linarith
        · rfl
      · rfl
    | t + 1 =>
      have hple : priceAtSupply s ≤ budget := by
        rw [costFrom_succ] at hcost
        have := costFrom_nonneg t (s + 1)
        linarith
      have hpos : 0 < budget := lt_of_lt_of_le (priceAtSupply_pos s) hple
      rw [buyGo_succ, if_pos hpos, if_pos hple]
      have hrec : buyGo (budget - priceAtSupply s) (s + 1) fuel = t := by
        refine ih (budget - priceAtSupply s) (s + 1) t (by omega) ?_ ?_
        · rw [costFrom_succ] at hcost
          linarith
        · rcases hmax with hmax | hmax
          · left
            rw [costFrom_succ] at hmax
            linarith
          · right
            omega
      omega

theorem sellGo_fuel_zero (s : ℤ) (t : ℕ) : sellGo s t 0 = 0 := by
  cases t <;> rfl

theorem sellGo_tokens_zero (s : ℤ) (fuel : ℕ) : sellGo s 0 fuel = 0 := by
  cases fuel <;> rfl

theorem sellGo_succ (s : ℤ) (t fuel : ℕ) :
    sellGo s (t + 1) (fuel + 1) =
      if 0 ≤ s then priceAtSupplyZ s + sellGo (s - 1) t fuel else 0 := rfl

/-- Characterization of the sell walk: starting one below `k`, it sums
exactly `min t (min k fuel)` descending prices, i.e. the ascending cost of
that many tokens ending just below `k`. -/
theorem sellGo_char (fuel : ℕ) : ∀ (k t : ℕ),
    sellGo ((k : ℤ) - 1) t fuel
      = costFrom (k - min t (min k fuel)) (min t (min k fuel)) := by
  induction fuel with
  | zero =>
    intro k t
    simp [sellGo_fuel_zero, costFrom_zero]
  | succ fuel ih =>
    intro k t
    match k, t with
    | 0, 0 => simp [sellGo_tokens_zero, costFrom_zero]
    | 0, t + 1 =>
      have hneg : ¬ (0 ≤ (0 : ℤ) - 1) := by norm_num
      rw [sellGo_succ]
      push_cast
      simp [hneg, costFrom_zero]
    | k + 1, 0 => simp [sellGo_tokens_zero, costFrom_zero]
    | k + 1, t + 1 =>
      have harg : ((k + 1 : ℕ) : ℤ) - 1 = (k : ℤ) := by push_cast; ring
      have hnn : (0 : ℤ) ≤ ((k + 1 : ℕ) : ℤ) - 1 := by rw [harg]; positivity
      rw [sellGo_succ, if_pos hnn, harg]
      have harg2 : (k : ℤ) - 1 = ((k : ℕ) : ℤ) - 1 := rfl
      rw [harg2, ih k t]
      set n := min t (min k fuel) with hn
      have hmin : min (t + 1) (min (k + 1) (fuel + 1)) = n + 1 := by omega
      rw [hmin]
      have hnk : n ≤ k := by omega
      have hsub : k + 1 - (n + 1) = k - n := by omega
      rw [hsub, costFrom_succ_right]
      have hidx : k - n + n = k := by omega
      rw [hidx, priceAtSupplyZ_natCast]
      ring

/-- The sell walk's starting index rewritten through the `max` with 1. -/
theorem sell_start_eq (c : ℕ) :
    max 0 ((c : ℤ) - 1) = ((max c 1 : ℕ) : ℤ) - 1 := by
  omega

/-- Full characterization of `sellTokensQuote`. -/
theorem sellTokensQuote_char (c t : ℕ) :
    sellTokensQuote c t
      = costFrom (max c 1 - min t (min (max c 1) 5000)) (min t (min (max c 1) 5000)) := by
  rw [sellTokensQuote, sell_start_eq, sellGo_char]

/-! ## Ledger and offer-book lemmas -/

theorem hGet_hSet_same (hs : List (String × ℕ)) (u : String) (b : ℕ) :
    hGet (hSet hs u b) u = b := by
  induction hs with
  | nil => simp [hGet, hSet]
  | cons hd tl ih =>
    obtain ⟨k, v⟩ := hd
    by_cases hk : k = u
    · simp [hGet, hSet, hk]
    · simp [hGet, hSet, hk, ih]

theorem hGet_hSet_other (hs : List (String × ℕ)) (u u' : String) (b : ℕ)
    (h : u' ≠ u) : hGet (hSet hs u b) u' = hGet hs u' := by
  have hne : ¬ u = u' := fun hh => h hh.symm
  induction hs with
  | nil => simp only [hSet, hGet]; rw [if_neg hne]
  | cons hd tl ih =>
    obtain ⟨k, v⟩ := hd
    by_cases hk : k = u
    · subst hk
      simp only [hSet, if_pos rfl, hGet]
      rw [if_neg hne, if_neg hne]
    · simp only [hSet, if_neg hk, hGet]
      by_cases hk' : k = u'
      · simp [hk']
      · simp [hk', ih]

theorem sumBalances_hSet (hs : List (String × ℕ)) (u : String) (b : ℕ) :
    sumBalances (hSet hs u b) + hGet hs u = sumBalances hs + b := by
  induction hs with
  | nil => simp [sumBalances, hSet, hGet]
  | cons hd tl ih =>
    obtain ⟨k, v⟩ := hd
    by_cases hk : k = u
    · simp only [hSet, if_pos hk, hGet, sumBalances, List.map_cons, List.sum_cons]
      omega
    · simp only [hSet, if_neg hk, hGet, sumBalances, List.map_cons, List.sum_cons]
      simp only [sumBalances] at ih
      omega

theorem hGet_le_sumBalances (hs : List (String × ℕ)) (u : String) :
    hGet hs u ≤ sumBalances hs := by
  induction hs with
  | nil => simp [hGet, sumBalances]
  | cons hd tl ih =>
    obtain ⟨k, v⟩ := hd
    simp only [hGet, sumBalances, List.map_cons, List.sum_cons]
    simp only [sumBalances] at ih
    by_cases hk : k = u
    · rw [if_pos hk]; omega
    · rw [if_neg hk]; omega

theorem sumOpenOffers_append (os : List Offer) (o : Offer) :
    sumOpenOffers (os ++ [o]) = sumOpenOffers os + openAmount o := by
  simp [sumOpenOffers]

theorem sumOpenOffers_set (os : List Offer) : ∀ (i : ℕ) (o o' : Offer),
    os.get? i = some o →
    sumOpenOffers (os.set i o') + openAmount o = sumOpenOffers os + openAmount o' := by
  induction os with
  | nil => intro i o o' h; simp [List.get?] at h
  | cons hd tl ih =>
    intro i o o' h
    match i with
    | 0 =>
      simp only [List.get?] at h
      cases h
      simp only [List.set, sumOpenOffers, List.map_cons, List.sum_cons]
      omega
    | i + 1 =>
      simp only [List.get?] at h
      have := ih i o o' h
      simp only [List.set, sumOpenOffers, List.map_cons, List.sum_cons]
      simp only [sumOpenOffers] at this
      omega

theorem get?_set_ne (os : List Offer) : ∀ (i j : ℕ) (o : Offer), i ≠ j →
    (os.set j o).get? i = os.get? i := by
  induction os with
  | nil => intro i j o _; simp
  | cons hd tl ih =>
    intro i j o hij
    match i, j with
    | 0, 0 => omega
    | 0, j + 1 => simp [List.set]
    | i + 1, 0 => simp [List.set]
    | i + 1, j + 1 =>
      simp only [List.set, List.get?]
      exact ih i j o (by omega)

theorem get?_append_left (os : List Offer) : ∀ (i : ℕ) (o : Offer),
    i < os.length → (os ++ [o]).get? i = os.get? i := by
  induction os with
  | nil => intro i o h; simp at h
  | cons hd tl ih =>
    intro i o h
    match i with
    | 0 => simp
    | i + 1 =>
      simp only [List.cons_append, List.get?]
      exact ih i o (by simpa using h)

/-! ## Conservation -/

theorem conserved_step (s : EState) (op : Op) (h : conserved s) :
    conserved (step s op) := by
  cases op with
  | buy u f =>
    by_cases h1 : s.project.capReached
    · simpa [step, buyOp, h1] using h
    · by_cases h2 : f ≤ 0
      · simpa [step, buyOp, h1, h2] using h
      · by_cases h3 : buyTokensQuote s.project.supply f ≤ 0
        · simpa [step, buyOp, h1, h2, h3] using h
        · simp only [step, buyOp, if_neg h1, if_neg h2, if_neg h3]
          unfold conserved at h ⊢
          simp only
          have hsum := sumBalances_hSet s.holdings u
            (hGet s.holdings u + buyTokensQuote s.project.supply f)
          omega
  | sell u tk =>
    by_cases h1 : tk ≤ 0
    · simpa [step, sellOp, h1] using h
    · by_cases h2 : hGet s.holdings u < tk
      · simpa [step, sellOp, h1, h2] using h
      · simp only [step, sellOp, if_neg h1, if_neg h2]
        unfold conserved at h ⊢
        simp only
        have hsum := sumBalances_hSet s.holdings u (hGet s.holdings u - tk)
        have hle := hGet_le_sumBalances s.holdings u
        omega
  | createOffer u ppt a =>
    by_cases h1 : ppt ≤ 0 ∨ a ≤ 0
    · simp only [step, createOfferOp, if_pos h1]
      exact h
    · by_cases h2 : hGet s.holdings u < a
      · simp only [step, createOfferOp, if_neg h1, if_pos h2]
        exact h
      · simp only [step, createOfferOp, if_neg h1, if_neg h2]
        unfold conserved at h ⊢
        simp only
        rw [sumOpenOffers_append]
        have hsum := sumBalances_hSet s.holdings u (hGet s.holdings u - a)
        have hle := hGet_le_sumBalances s.holdings u
        have hoa : openAmount
            { sellerId := u, pricePerToken := ppt, amount := a,
              status := OfferStatus.opened } = a := by
          simp [openAmount]
        rw [hoa]
        omega
  | fill u oid a =>
    rcases heq : s.offers.get? oid with _ | offer
    · simp only [step, fillOp, heq]
      exact h
    · by_cases h2 : offer.status ≠ OfferStatus.opened ∨ offer.amount ≤ 0
      · simp only [step, fillOp, heq, if_pos h2]
        exact h
      · by_cases h3 : min offer.amount a ≤ 0
        · simp only [step, fillOp, heq, if_neg h2, if_pos h3]
          exact h
        · simp only [step, fillOp, heq, if_neg h2, if_neg h3]
          push_neg at h2
          obtain ⟨hopen, hamt⟩ := h2
          unfold conserved at h ⊢
          simp only
          have hsum := sumBalances_hSet s.holdings u (hGet s.holdings u + min offer.amount a)
          have hset := sumOpenOffers_set s.offers oid offer
            { offer with
              amount := offer.amount - min offer.amount a,
              status := if offer.amount - min offer.amount a = 0 then .filled
                        else offer.status } heq
          have hopen1 : openAmount offer = offer.amount := by simp [openAmount, hopen]
          have hopen2 : openAmount
              { offer with
                amount := offer.amount - min offer.amount a,
                status := if offer.amount - min offer.amount a = 0 then .filled
                          else offer.status } = offer.amount - min offer.amount a := by
            by_cases hz : offer.amount - min offer.amount a = 0
            · simp [openAmount, hz]
            · simp [openAmount, hz, hopen]
          rw [hopen1, hopen2] at hset
          omega

theorem conserved_run (ops : List Op) : ∀ s : EState, conserved s → conserved (run s ops) := by
  induction ops with
  | nil => intro s h; exact h
  | cons op ops ih =>
    intro s h
    exact ih (step s op) (conserved_step s op h)

/-! ## Auxiliary concrete evaluations -/

/-- At supply 10000 the marginal price is 101/100, so a budget of exactly
101/100 buys one token. -/
theorem buyTokensQuote_at_10000 : buyTokensQuote 10000 (101 / 100) = 1 := by
  unfold buyTokensQuote
  apply buyGo_det
  · omega
  · rw [costFrom_closed]
    unfold priceAtSupply BASE_PRICE SLOPE
    push_cast
    norm_num
  · left
    rw [costFrom_closed]
    unfold priceAtSupply BASE_PRICE SLOPE
    push_cast
    norm_num

/-- A budget of 2000 at supply 0 exhausts the 5000-iteration ceiling. -/
theorem buyTokensQuote_ceiling : buyTokensQuote 0 2000 = 5000 := by
  unfold buyTokensQuote
  apply buyGo_det
  · omega
  · rw [costFrom_closed]
    unfold priceAtSupply BASE_PRICE SLOPE
    push_cast
    norm_num
  · right
    rfl

/-! ## Claims -/

/-- C1: for every project, after every finite sequence of CreateProject,
Buy, Sell, CreateOffer and Fill operations, the sum of all Holding
balances plus the sum of `amount` over the project's open Offers equals
the project's `supply`. -/
theorem claim_C1_token_conservation (founderId nm : String) (ops : List Op) :
    conserved (run (createProject founderId nm) ops) := by
  apply conserved_run
  simp [conserved, createProject, sumBalances, sumOpenOffers]

/-- C3 (amended): for every supply `s` and funds `f > 0`, the tokens
returned by BuyQuote cost at most `f` at the walked prices, and — provided
the 5000-iteration ceiling was not reached — one more token would exceed
`f`. -/
theorem claim_C3_buy_quote_greedy (s : ℕ) (f : ℚ) (hf : 0 < f) :
    costFrom s (buyTokensQuote s f) ≤ f ∧
    (buyTokensQuote s f < 5000 → f < costFrom s (buyTokensQuote s f + 1)) := by
  constructor
  · exact buyGo_cost 5000 f s hf.le
  · intro hlt
    exact buyGo_maximal 5000 f s hlt

/-- C3 witness: the amended statement instantiated at supply 0 with funds
1/100 (which buys exactly one token). -/
theorem claim_C3_buy_quote_greedy_witness :
    0 < (1 / 100 : ℚ) ∧
    (costFrom 0 (buyTokensQuote 0 (1 / 100)) ≤ 1 / 100 ∧
      (buyTokensQuote 0 (1 / 100) < 5000 →
        1 / 100 < costFrom 0 (buyTokensQuote 0 (1 / 100) + 1))) :=
  ⟨by norm_num, claim_C3_buy_quote_greedy 0 (1 / 100) (by norm_num)⟩

/-- C3 counterexample: at supply 0 with funds 2000 the walk stops at the
5000-token iteration ceiling although a 5001st token would still fit the
budget, refuting "one more token would exceed f" as universally stated. -/
theorem claim_C3_counterexample :
    0 < (2000 : ℚ) ∧
    buyTokensQuote 0 2000 = 5000 ∧
    costFrom 0 (buyTokensQuote 0 2000 + 1) ≤ 2000 := by
  refine ⟨by norm_num, buyTokensQuote_ceiling, ?_⟩
  rw [buyTokensQuote_ceiling, costFrom_closed]
  unfold priceAtSupply BASE_PRICE SLOPE
  push_cast
  norm_num

/-- C5: buying `t = BuyQuote(s, f)` tokens and then immediately selling
exactly `t` tokens at the raised supply returns at most the funds spent. -/
theorem claim_C5_roundtrip (s : ℕ) (f : ℚ) (hf : 0 ≤ f) :
    sellTokensQuote (s + buyTokensQuote s f) (buyTokensQuote s f) ≤ f := by
  rcases Nat.eq_zero_or_pos (buyTokensQuote s f) with hz | hpos
  · rw [hz]
    unfold sellTokensQuote
    rw [sellGo_tokens_zero]
    exact hf
  · have hfuel : buyTokensQuote s f ≤ 5000 := buyGo_le_fuel 5000 f s
    rw [sellTokensQuote_char]
    have hmax : max (s + buyTokensQuote s f) 1 = s + buyTokensQuote s f := by omega
    have hmin : min (buyTokensQuote s f)
        (min (max (s + buyTokensQuote s f) 1) 5000) = buyTokensQuote s f := by omega
    rw [hmin, hmax]
    have hsub : s + buyTokensQuote s f - buyTokensQuote s f = s := by omega
    rw [hsub]
    exact buyGo_cost 5000 f s hf

/-- C5 witness: the round-trip bound instantiated at supply 0 with funds
1. -/
theorem claim_C5_roundtrip_witness :
    (0 : ℚ) ≤ 1 ∧
    sellTokensQuote (0 + buyTokensQuote 0 1) (buyTokensQuote 0 1) ≤ 1 :=
  ⟨by norm_num, claim_C5_roundtrip 0 1 (by norm_num)⟩

/-- C6 (amended): `sellTokensQuote` sums `min tokensIn (min (max
currentSupply 1) 5000)` consecutive descending prices starting at
`max 0 (currentSupply − 1)`; in particular at `currentSupply = 0` with
`tokensIn ≥ 1` it returns `price(0) = BASE_PRICE`, not 0. -/
theorem claim_C6_sell_quote_char (c t : ℕ) :
    sellTokensQuote c t
      = costFrom (max c 1 - min t (min (max c 1) 5000)) (min t (min (max c 1) 5000)) ∧
    sellTokensQuote 0 (t + 1) = BASE_PRICE := by
  constructor
  · exact sellTokensQuote_char c t
  · rw [sellTokensQuote_char]
    have h1 : max 0 1 = 1 := by omega
    rw [h1]
    have h2 : min (t + 1) (min 1 5000) = 1 := by omega
    rw [h2]
    rw [costFrom_succ, costFrom_zero]
    unfold priceAtSupply
    push_cast
    ring

/-- C6 counterexample: at `currentSupply = 0` selling one token returns
`BASE_PRICE = 1/100`, not 0 as claimed. -/
theorem claim_C6_counterexample :
    sellTokensQuote 0 1 = 1 / 100 ∧ (1 / 100 : ℚ) ≠ 0 := by
  constructor
  · norm_num [sellTokensQuote, sellGo, priceAtSupplyZ, BASE_PRICE, SLOPE]
  · norm_num

/-- C2: Buy rejects CapReached when the cap flag is set (the code checks
this first), InvalidAmount when `fundsIn ≤ 0`, QuoteTooSmall when the
quote yields 0 tokens; otherwise it adds `tokensOut` to supply, adds the
entire `fundsIn` to reserve, sets `capReached` to true iff the updated
reserve reaches the funding goal, credits the caller by `tokensOut`, and
returns the updated project with `tokensOut`. -/
theorem claim_C2_buy_spec (s : EState) (u : String) (f : ℚ) :
    (s.project.capReached = true → (buyOp u f s).2 = .error .capReached) ∧
    (s.project.capReached = false → f ≤ 0 → (buyOp u f s).2 = .error .invalidAmount) ∧
    (s.project.capReached = false → 0 < f →
      buyTokensQuote s.project.supply f = 0 →
      (buyOp u f s).2 = .error .quoteTooSmall) ∧
    (s.project.capReached = false → 0 < f →
      0 < buyTokensQuote s.project.supply f →
      (buyOp u f s).2 = .ok ((buyOp u f s).1.project, buyTokensQuote s.project.supply f) ∧
      (buyOp u f s).1.project.supply = s.project.supply + buyTokensQuote s.project.supply f ∧
      (buyOp u f s).1.project.reserve = s.project.reserve + f ∧
      ((buyOp u f s).1.project.capReached = true ↔ FUNDING_CAP ≤ s.project.reserve + f) ∧
      hGet (buyOp u f s).1.holdings u
        = hGet s.holdings u + buyTokensQuote s.project.supply f) := by
  refine ⟨?_, ?_, ?_, ?_⟩
  · intro hcap
    simp only [buyOp, if_pos hcap]
  · intro hcap hf
    have hcap' : ¬ s.project.capReached = true := by simp [hcap]
    simp only [buyOp, if_neg hcap', if_pos hf]
  · intro hcap hf hq
    have hcap' : ¬ s.project.capReached = true := by simp [hcap]
    have hf' : ¬ f ≤ 0 := not_le.mpr hf
    have hq' : buyTokensQuote s.project.supply f ≤ 0 := by omega
    simp only [buyOp, if_neg hcap', if_neg hf', if_pos hq']
  · intro hcap hf hq
    have hcap' : ¬ s.project.capReached = true := by simp [hcap]
    have hf' : ¬ f ≤ 0 := not_le.mpr hf
    have hq' : ¬ buyTokensQuote s.project.supply f ≤ 0 := by omega
    simp only [buyOp, if_neg hcap', if_neg hf', if_neg hq']
    refine ⟨by trivial, by trivial, by trivial, ?_, hGet_hSet_same s.holdings u _⟩
    by_cases hr : FUNDING_CAP ≤ s.project.reserve + f
    · simp only [if_pos hr]
      exact ⟨fun _ => hr, fun _ => trivial⟩
    · simp only [if_neg hr, hcap]
      exact ⟨fun hh => absurd hh (by simp), fun hh => absurd hh hr⟩

/-- C2 witness: a successful buy of one token on `demoState` (supply
10000, price 1.01) with funds 101/100. -/
theorem claim_C2_buy_spec_witness :
    demoState.project.capReached = false ∧
    (0 : ℚ) < 101 / 100 ∧
    0 < buyTokensQuote demoState.project.supply (101 / 100) ∧
    ((buyOp "backer" (101 / 100) demoState).2
        = .ok ((buyOp "backer" (101 / 100) demoState).1.project,
               buyTokensQuote demoState.project.supply (101 / 100)) ∧
      (buyOp "backer" (101 / 100) demoState).1.project.supply
        = demoState.project.supply + buyTokensQuote demoState.project.supply (101 / 100) ∧
      (buyOp "backer" (101 / 100) demoState).1.project.reserve
        = demoState.project.reserve + 101 / 100 ∧
      ((buyOp "backer" (101 / 100) demoState).1.project.capReached = true
        ↔ FUNDING_CAP ≤ demoState.project.reserve + 101 / 100) ∧
      hGet (buyOp "backer" (101 / 100) demoState).1.holdings "backer"
        = hGet demoState.holdings "backer"
            + buyTokensQuote demoState.project.supply (101 / 100)) := by
  have hsup : demoState.project.supply = 10000 := rfl
  have hq : 0 < buyTokensQuote demoState.project.supply (101 / 100) := by
    rw [hsup, buyTokensQuote_at_10000]
    omega
  exact ⟨rfl, by norm_num, hq,
    (claim_C2_buy_spec demoState "backer" (101 / 100)).2.2.2 rfl (by norm_num) hq⟩

/-- C8: a successful Sell sets supply to `max(0, supply − tokensIn)` (Nat
truncated subtraction) and reserve to `max(0, reserve − amountOut)` with
`amountOut = SellQuote(old supply, tokensIn)`, debits only the caller by
`tokensIn`, and changes nothing else: `capReached` and all other project
fields are untouched, every other user's balance is untouched and the
offer book is untouched. -/
theorem claim_C8_sell_frame (s : EState) (u : String) (tk : ℕ)
    (h1 : 0 < tk) (h2 : tk ≤ hGet s.holdings u) :
    (sellOp u tk s).2
      = .ok ((sellOp u tk s).1.project, sellTokensQuote s.project.supply tk) ∧
    (sellOp u tk s).1.project.supply = s.project.supply - tk ∧
    (sellOp u tk s).1.project.reserve
      = max 0 (s.project.reserve - sellTokensQuote s.project.supply tk) ∧
    (sellOp u tk s).1.project.capReached = s.project.capReached ∧
    (sellOp u tk s).1.project.id = s.project.id ∧
    (sellOp u tk s).1.project.founderId = s.project.founderId ∧
    (sellOp u tk s).1.project.name = s.project.name ∧
    hGet (sellOp u tk s).1.holdings u = hGet s.holdings u - tk ∧
    (∀ u' : String, u' ≠ u → hGet (sellOp u tk s).1.holdings u' = hGet s.holdings u') ∧
    (sellOp u tk s).1.offers = s.offers := by
  have h1' : ¬ tk ≤ 0 := by omega
  have h2' : ¬ hGet s.holdings u < tk := by omega
  simp only [sellOp, if_neg h1', if_neg h2']
  refine ⟨by trivial, by trivial, by trivial, by trivial, by trivial, by trivial,
    by trivial, hGet_hSet_same s.holdings u _, ?_, by trivial⟩
  intro u' hu
  exact hGet_hSet_other s.holdings u u' _ hu

/-- C8 witness: the founder of a fresh project (100-token allocation)
sells 5 tokens. -/
theorem claim_C8_sell_frame_witness :
    0 < 5 ∧
    5 ≤ hGet (createProject "fd" "n").holdings "fd" ∧
    ((sellOp "fd" 5 (createProject "fd" "n")).2
        = .ok ((sellOp "fd" 5 (createProject "fd" "n")).1.project,
               sellTokensQuote (createProject "fd" "n").project.supply 5) ∧
      (sellOp "fd" 5 (createProject "fd" "n")).1.project.supply
        = (createProject "fd" "n").project.supply - 5 ∧
      (sellOp "fd" 5 (createProject "fd" "n")).1.project.reserve
        = max 0 ((createProject "fd" "n").project.reserve
            - sellTokensQuote (createProject "fd" "n").project.supply 5) ∧
      (sellOp "fd" 5 (createProject "fd" "n")).1.project.capReached
        = (createProject "fd" "n").project.capReached ∧
      (sellOp "fd" 5 (createProject "fd" "n")).1.project.id
        = (createProject "fd" "n").project.id ∧
      (sellOp "fd" 5 (createProject "fd" "n")).1.project.founderId
        = (createProject "fd" "n").project.founderId ∧
      (sellOp "fd" 5 (createProject "fd" "n")).1.project.name
        = (createProject "fd" "n").project.name ∧
      hGet (sellOp "fd" 5 (createProject "fd" "n")).1.holdings "fd"
        = hGet (createProject "fd" "n").holdings "fd" - 5 ∧
      (∀ u' : String, u' ≠ "fd" →
        hGet (sellOp "fd" 5 (createProject "fd" "n")).1.holdings u'
          = hGet (createProject "fd" "n").holdings u') ∧
      (sellOp "fd" 5 (createProject "fd" "n")).1.offers
        = (createProject "fd" "n").offers) := by
  have hbal : hGet (createProject "fd" "n").holdings "fd" = 100 := rfl
  refine ⟨by omega, by rw [hbal]; omega, ?_⟩
  exact claim_C8_sell_frame (createProject "fd" "n") "fd" 5 (by omega)
    (by rw [hbal]; omega)

/-- The sell quote is a sum of prices, hence non-negative. -/
theorem sellTokensQuote_nonneg (c t : ℕ) : 0 ≤ sellTokensQuote c t := by
  rw [sellTokensQuote_char]
  exact costFrom_nonneg _ _

/-- The data-model invariants of §3 — `reserve ≥ 0` and `capReached`
whenever the reserve has reached the goal — are preserved by every
operation. -/
theorem reserveInvariants_step (s : EState) (op : Op)
    (h0 : 0 ≤ s.project.reserve)
    (h1 : FUNDING_CAP ≤ s.project.reserve → s.project.capReached = true) :
    0 ≤ (step s op).project.reserve ∧
    (FUNDING_CAP ≤ (step s op).project.reserve →
      (step s op).project.capReached = true) := by
  cases op with
  | buy u f =>
    by_cases hb1 : s.project.capReached = true
    · simp only [step, buyOp, if_pos hb1]
      exact ⟨h0, h1⟩
    · by_cases hb2 : f ≤ 0
      · simp only [step, buyOp, if_neg hb1, if_pos hb2]
        exact ⟨h0, h1⟩
      · by_cases hb3 : buyTokensQuote s.project.supply f ≤ 0
        · simp only [step, buyOp, if_neg hb1, if_neg hb2, if_pos hb3]
          exact ⟨h0, h1⟩
        · simp only [step, buyOp, if_neg hb1, if_neg hb2, if_neg hb3]
          push_neg at hb2
          constructor
          · linarith
          · intro hr
            rw [if_pos hr]
  | sell u tk =>
    by_cases hs1 : tk ≤ 0
    · simp only [step, sellOp, if_pos hs1]
      exact ⟨h0, h1⟩
    · by_cases hs2 : hGet s.holdings u < tk
      · simp only [step, sellOp, if_neg hs1, if_pos hs2]
        exact ⟨h0, h1⟩
      · simp only [step, sellOp, if_neg hs1, if_neg hs2]
        have hq : 0 ≤ sellTokensQuote s.project.supply tk :=
          sellTokensQuote_nonneg _ _
        constructor
        · exact le_max_left 0 _
        · intro hr
          apply h1
          rcases le_total 0 (s.project.reserve - sellTokensQuote s.project.supply tk)
            with hd | hd
          · rw [max_eq_right hd] at hr
            linarith
          · rw [max_eq_left (by linarith)] at hr
            exfalso
            have : (0 : ℚ) < FUNDING_CAP := by norm_num [FUNDING_CAP]
            linarith
  | createOffer u ppt a =>
    by_cases hc1 : ppt ≤ 0 ∨ a ≤ 0
    · simp only [step, createOfferOp, if_pos hc1]
      exact ⟨h0, h1⟩
    · by_cases hc2 : hGet s.holdings u < a
      · simp only [step, createOfferOp, if_neg hc1, if_pos hc2]
        exact ⟨h0, h1⟩
      · simp only [step, createOfferOp, if_neg hc1, if_neg hc2]
        exact ⟨h0, h1⟩
  | fill u oid a =>
    rcases heq : s.offers.get? oid with _ | offer
    · simp only [step, fillOp, heq]
      exact ⟨h0, h1⟩
    · by_cases hf2 : offer.status ≠ OfferStatus.opened ∨ offer.amount ≤ 0
      · simp only [step, fillOp, heq, if_pos hf2]
        exact ⟨h0, h1⟩
      · by_cases hf3 : min offer.amount a ≤ 0
        · simp only [step, fillOp, heq, if_neg hf2, if_pos hf3]
          exact ⟨h0, h1⟩
        · simp only [step, fillOp, heq, if_neg hf2, if_neg hf3]
          exact ⟨h0, h1⟩

/-- The §3 invariants hold in every state reachable from a fresh project,
which justifies assuming them for the release claim. -/
theorem reserveInvariants_run (ops : List Op) : ∀ s : EState,
    0 ≤ s.project.reserve →
    (FUNDING_CAP ≤ s.project.reserve → s.project.capReached = true) →
    0 ≤ (run s ops).project.reserve ∧
    (FUNDING_CAP ≤ (run s ops).project.reserve →
      (run s ops).project.capReached = true) := by
  induction ops with
  | nil => intro s h0 h1; exact ⟨h0, h1⟩
  | cons op ops ih =>
    intro s h0 h1
    obtain ⟨g0, g1⟩ := reserveInvariants_step s op h0 h1
    exact ih (step s op) g0 g1

/-- C4: Release is founder-only, rejects AlreadyReleased and NotApproved
as specified, and on success moves `min(proposal.amount, reserve)` out of
the reserve, clamps the reserve at 0, re-derives `capReached` as
`reserve ≥ fundingGoal`, marks proposal and milestone released and returns
all four results.  The hypotheses are the data-model invariants of §3:
the reserve is non-negative, the proposal amount is non-negative, and
`capReached` is set whenever the reserve has reached the goal. -/
theorem claim_C4_release_spec (caller : String) (p : Project) (pr : Proposal)
    (m : Milestone) (hres : 0 ≤ p.reserve) (hamt : 0 ≤ pr.amount)
    (hinv : FUNDING_CAP ≤ p.reserve → p.capReached = true) :
    (p.founderId ≠ caller → releaseOp caller p pr m = .error .forbidden) ∧
    (p.founderId = caller → pr.released = true →
      releaseOp caller p pr m = .error .alreadyReleased) ∧
    (p.founderId = caller → pr.released = false →
      (pr.approvals < 1 ∨ pr.approvals ≤ pr.rejections) →
      releaseOp caller p pr m = .error .notApproved) ∧
    (p.founderId = caller → pr.released = false →
      1 ≤ pr.approvals → pr.rejections < pr.approvals →
      releaseOp caller p pr m =
        .ok ({ p with
                reserve := max 0 (p.reserve - min pr.amount p.reserve),
                capReached :=
                  decide (FUNDING_CAP ≤ max 0 (p.reserve - min pr.amount p.reserve)) },
             { pr with released := true },
             { m with status := .released },
             min pr.amount p.reserve)) := by
  refine ⟨?_, ?_, ?_, ?_⟩
  · intro hne
    simp only [releaseOp, if_pos hne]
  · intro he hrel
    have hne : ¬ p.founderId ≠ caller := by simp [he]
    simp only [releaseOp, if_neg hne, if_pos hrel]
  · intro he hrel hna
    have hne : ¬ p.founderId ≠ caller := by simp [he]
    have hrel' : ¬ pr.released = true := by simp [hrel]
    simp only [releaseOp, if_neg hne, if_neg hrel', if_pos hna]
  · intro he hrel hap hrj
    have hne : ¬ p.founderId ≠ caller := by simp [he]
    have hrel' : ¬ pr.released = true := by simp [hrel]
    have hna : ¬ (pr.approvals < 1 ∨ pr.approvals ≤ pr.rejections) := by omega
    simp only [releaseOp, if_neg hne, if_neg hrel', if_neg hna]
    have hcap : (if max 0 (p.reserve - min pr.amount p.reserve) < FUNDING_CAP
          then false else p.capReached)
        = decide (FUNDING_CAP ≤ max 0 (p.reserve - min pr.amount p.reserve)) := by
      by_cases hr : max 0 (p.reserve - min pr.amount p.reserve) < FUNDING_CAP
      · rw [if_pos hr]
        exact (decide_eq_false (not_le.mpr hr)).symm
      · rw [if_neg hr]
        push_neg at hr
        have hple : max 0 (p.reserve - min pr.amount p.reserve) ≤ p.reserve := by
          have h0 : 0 ≤ min pr.amount p.reserve := le_min hamt hres
          have : p.reserve - min pr.amount p.reserve ≤ p.reserve := by linarith
          exact max_le hres this
        rw [hinv (le_trans hr hple)]
        exact (decide_eq_true hr).symm
    rw [hcap]

/-- C4 witness: the founder releases an approved 600 proposal against a
project holding 99999 in reserve. -/
theorem claim_C4_release_spec_witness :
    (0 : ℚ) ≤ demoStateNearCap.project.reserve ∧
    (0 : ℚ) ≤ (600 : ℚ) ∧
    (FUNDING_CAP ≤ demoStateNearCap.project.reserve →
      demoStateNearCap.project.capReached = true) ∧
    releaseOp "fd" demoStateNearCap.project
        ⟨600, 2, 1, false⟩ ⟨"m1", 1000, .pending⟩
      = .ok ({ demoStateNearCap.project with
                reserve := max 0 (demoStateNearCap.project.reserve
                  - min 600 demoStateNearCap.project.reserve),
                capReached := decide (FUNDING_CAP
                  ≤ max 0 (demoStateNearCap.project.reserve
                      - min 600 demoStateNearCap.project.reserve)) },
             { (⟨600, 2, 1, false⟩ : Proposal) with released := true },
             { (⟨"m1", 1000, .pending⟩ : Milestone) with status := .released },
             min 600 demoStateNearCap.project.reserve) := by
  have hres : (0 : ℚ) ≤ demoStateNearCap.project.reserve := by
    norm_num [demoStateNearCap, demoState]
  have hinv : FUNDING_CAP ≤ demoStateNearCap.project.reserve →
      demoStateNearCap.project.capReached = true := by
    intro hx
    exfalso
    norm_num [FUNDING_CAP, demoStateNearCap, demoState] at hx
  exact ⟨hres, by norm_num, hinv,
    (claim_C4_release_spec "fd" demoStateNearCap.project ⟨600, 2, 1, false⟩
        ⟨"m1", 1000, .pending⟩ hres (by norm_num) hinv).2.2.2
      rfl rfl (by decide) (by decide)⟩

/-- No operation of the engine ever clears the cap flag. -/
theorem capReached_step (s : EState) (op : Op) (h : s.project.capReached = true) :
    (step s op).project.capReached = true := by
  cases op with
  | buy u f =>
    simp only [step, buyOp, if_pos h]
    exact h
  | sell u tk =>
    by_cases h1 : tk ≤ 0
    · simp only [step, sellOp, if_pos h1]
      exact h
    · by_cases h2 : hGet s.holdings u < tk
      · simp only [step, sellOp, if_neg h1, if_pos h2]
        exact h
      · simp only [step, sellOp, if_neg h1, if_neg h2]
        exact h
  | createOffer u ppt a =>
    by_cases h1 : ppt ≤ 0 ∨ a ≤ 0
    · simp only [step, createOfferOp, if_pos h1]
      exact h
    · by_cases h2 : hGet s.holdings u < a
      · simp only [step, createOfferOp, if_neg h1, if_pos h2]
        exact h
      · simp only [step, createOfferOp, if_neg h1, if_neg h2]
        exact h
  | fill u oid a =>
    rcases heq : s.offers.get? oid with _ | offer
    · simp only [step, fillOp, heq]
      exact h
    · by_cases h2 : offer.status ≠ OfferStatus.opened ∨ offer.amount ≤ 0
      · simp only [step, fillOp, heq, if_pos h2]
        exact h
      · by_cases h3 : min offer.amount a ≤ 0
        · simp only [step, fillOp, heq, if_neg h2, if_pos h3]
          exact h
        · simp only [step, fillOp, heq, if_neg h2, if_neg h3]
          exact h

theorem capReached_run (ops : List Op) : ∀ s : EState,
    s.project.capReached = true → (run s ops).project.capReached = true := by
  induction ops with
  | nil => intro s h; exact h
  | cons op ops ih =>
    intro s h
    exact ih (step s op) (capReached_step s op h)

/-- C7: the buy that lifts the reserve to the funding goal sets
`capReached`; once `capReached` is set, it remains set across every
sequence of Buy/Sell/CreateOffer/Fill operations, and every subsequent buy
is rejected with CapReached. -/
theorem claim_C7_cap_reached_sticky :
    (∀ (s : EState) (u : String) (f : ℚ) (p : Project) (t : ℕ),
      (buyOp u f s).2 = .ok (p, t) → FUNDING_CAP ≤ s.project.reserve + f →
      p.capReached = true ∧ (buyOp u f s).1.project.capReached = true) ∧
    (∀ (s : EState) (ops : List Op),
      s.project.capReached = true → (run s ops).project.capReached = true) ∧
    (∀ (s : EState) (u : String) (f : ℚ),
      s.project.capReached = true → (buyOp u f s).2 = .error .capReached) := by
  refine ⟨?_, ?_, ?_⟩
  · intro s u f p t hok hcap
    by_cases h1 : s.project.capReached = true
    · rw [buyOp] at hok
      rw [if_pos h1] at hok
      exact Except.noConfusion hok
    · by_cases h2 : f ≤ 0
      · rw [buyOp] at hok
        rw [if_neg h1, if_pos h2] at hok
        exact Except.noConfusion hok
      · by_cases h3 : buyTokensQuote s.project.supply f ≤ 0
        · rw [buyOp] at hok
          rw [if_neg h1, if_neg h2, if_pos h3] at hok
          exact Except.noConfusion hok
        · simp only [buyOp, if_neg h1, if_neg h2, if_neg h3] at hok ⊢
          rw [Except.ok.injEq, Prod.mk.injEq] at hok
          obtain ⟨hp, -⟩ := hok
          rw [← hp]
          simp only [if_pos hcap]
          exact ⟨by trivial, by trivial⟩
  · intro s ops h
    exact capReached_run ops s h
  · intro s u f h
    simp only [buyOp, if_pos h]

/-- C7 witness: on a state with reserve 99999 a buy of 1.01 reaches the
goal and sets the flag; a capped state keeps the flag and rejects a buy. -/
theorem claim_C7_cap_reached_sticky_witness :
    ((buyOp "fd" (101 / 100) demoStateNearCap).2
        = .ok ({ id := "p1", founderId := "fd", name := "demo", supply := 10001,
                 reserve := 99999 + 101 / 100, capReached := true }, 1) ∧
      FUNDING_CAP ≤ demoStateNearCap.project.reserve + 101 / 100 ∧
      (buyOp "fd" (101 / 100) demoStateNearCap).1.project.capReached = true) ∧
    demoStateCapped.project.capReached = true ∧
    (run demoStateCapped [Op.sell "u" 1]).project.capReached = true ∧
    (buyOp "u" 1 demoStateCapped).2 = .error .capReached := by
  have hcap : FUNDING_CAP ≤ demoStateNearCap.project.reserve + 101 / 100 := by
    norm_num [FUNDING_CAP, demoStateNearCap, demoState]
  have hok : (buyOp "fd" (101 / 100) demoStateNearCap).2
      = .ok ({ id := "p1", founderId := "fd", name := "demo", supply := 10001,
               reserve := 99999 + 101 / 100, capReached := true }, 1) := by
    have hsup : demoStateNearCap.project.supply = 10000 := rfl
    simp only [buyOp, demoStateNearCap, demoState]
    norm_num [buyTokensQuote_at_10000, FUNDING_CAP]
  refine ⟨⟨hok, hcap, ?_⟩, rfl, ?_, ?_⟩
  · exact (claim_C7_cap_reached_sticky.1 demoStateNearCap "fd" (101 / 100)
      { id := "p1", founderId := "fd", name := "demo", supply := 10001,
        reserve := 99999 + 101 / 100, capReached := true } 1 hok hcap).2
  · exact claim_C7_cap_reached_sticky.2.1 demoStateCapped [Op.sell "u" 1] rfl
  · exact claim_C7_cap_reached_sticky.2.2 demoStateCapped "u" 1 rfl

/-- C9: whenever an operation (create project, buy, sell, create offer,
fill offer) returns a typed failure, the state it leaves behind is exactly
the state it was given — all validation happens before any write. -/
theorem claim_C9_failure_no_mutation :
    (∀ (s : EState) (op : Op) (e : ApiError),
      stepResult s op = .error e → step s op = s) ∧
    (∀ (st : Option EState) (founderId nm summary plan : String) (e : ApiError),
      (createProjectOp founderId nm summary plan st).2 = .error e →
      (createProjectOp founderId nm summary plan st).1 = st) := by
  constructor
  · intro s op e h
    cases op with
    | buy u f =>
      by_cases h1 : s.project.capReached = true
      · simp only [step, buyOp, if_pos h1]
      · by_cases h2 : f ≤ 0
        · simp only [step, buyOp, if_neg h1, if_pos h2]
        · by_cases h3 : buyTokensQuote s.project.supply f ≤ 0
          · simp only [step, buyOp, if_neg h1, if_neg h2, if_pos h3]
          · simp only [stepResult, buyOp, if_neg h1, if_neg h2, if_neg h3,
              Except.map] at h
            exact Except.noConfusion h
    | sell u tk =>
      by_cases h1 : tk ≤ 0
      · simp only [step, sellOp, if_pos h1]
      · by_cases h2 : hGet s.holdings u < tk
        · simp only [step, sellOp, if_neg h1, if_pos h2]
        · simp only [stepResult, sellOp, if_neg h1, if_neg h2, Except.map] at h
          exact Except.noConfusion h
    | createOffer u ppt a =>
      by_cases h1 : ppt ≤ 0 ∨ a ≤ 0
      · simp only [step, createOfferOp, if_pos h1]
      · by_cases h2 : hGet s.holdings u < a
        · simp only [step, createOfferOp, if_neg h1, if_pos h2]
        · simp only [stepResult, createOfferOp, if_neg h1, if_neg h2,
            Except.map] at h
          exact Except.noConfusion h
    | fill u oid a =>
      rcases heq : s.offers.get? oid with _ | offer
      · simp only [step, fillOp, heq]
      · by_cases h2 : offer.status ≠ OfferStatus.opened ∨ offer.amount ≤ 0
        · simp only [step, fillOp, heq, if_pos h2]
        · by_cases h3 : min offer.amount a ≤ 0
          · simp only [step, fillOp, heq, if_neg h2, if_pos h3]
          · simp only [stepResult, fillOp, heq, if_neg h2, if_neg h3,
              Except.map] at h
            exact Except.noConfusion h
  · intro st founderId nm summary plan e h
    by_cases h1 : nm = "" ∨ summary = "" ∨ plan = ""
    · simp only [createProjectOp, if_pos h1]
    · simp only [createProjectOp, if_neg h1] at h
      exact Except.noConfusion h

/-- C9 witness: a buy on a cap-reached project fails with CapReached and
leaves the state untouched. -/
theorem claim_C9_failure_no_mutation_witness :
    stepResult demoStateCapped (Op.buy "u" 1) = .error .capReached ∧
    step demoStateCapped (Op.buy "u" 1) = demoStateCapped := by
  have h : stepResult demoStateCapped (Op.buy "u" 1) = .error .capReached := rfl
  exact ⟨h,
    claim_C9_failure_no_mutation.1 demoStateCapped (Op.buy "u" 1) .capReached h⟩

/-- C10 counterexample: the fill handler never compares the filler with
the offer's seller, so the seller recovers their own escrow by filling
their own offer.  Starting from a fresh project of "alice" (balance 100),
listing 5 tokens leaves balance 95 and an open 5-token offer; the
one-operation sequence `[fill by "alice"]` — every call made by the
seller — returns all 5 escrowed tokens to the seller's Holding. -/
theorem claim_C10_counterexample :
    hGet (createOfferOp "alice" 1 5 (createProject "alice" "p")).1.holdings "alice"
      = 95 ∧
    (createOfferOp "alice" 1 5 (createProject "alice" "p")).1.offers
      = [{ sellerId := "alice", pricePerToken := 1, amount := 5, status := .opened }] ∧
    hGet (run (createOfferOp "alice" 1 5 (createProject "alice" "p")).1
        [Op.fill "alice" 0 5]).holdings "alice" = 100 := by
  refine ⟨?_, ?_, ?_⟩ <;>
    norm_num [run, step, createOfferOp, createProject, fillOp, hGet, hSet,
      List.get?]

/-- C10 (amended): escrowed tokens leave an existing offer only through a
fill of that same offer — there is no cancel operation and no other
operation modifies an existing offer — but the engine does not restrict
who the filler is. -/
theorem claim_C10_escrow_only_fill (s : EState) (op : Op) (i : ℕ)
    (hi : i < s.offers.length) (hnf : ∀ (u : String) (a : ℕ), op ≠ Op.fill u i a) :
    (step s op).offers.get? i = s.offers.get? i := by
  cases op with
  | buy u f =>
    by_cases h1 : s.project.capReached = true
    · simp only [step, buyOp, if_pos h1]
    · by_cases h2 : f ≤ 0
      · simp only [step, buyOp, if_neg h1, if_pos h2]
      · by_cases h3 : buyTokensQuote s.project.supply f ≤ 0
        · simp only [step, buyOp, if_neg h1, if_neg h2, if_pos h3]
        · simp only [step, buyOp, if_neg h1, if_neg h2, if_neg h3]
  | sell u tk =>
    by_cases h1 : tk ≤ 0
    · simp only [step, sellOp, if_pos h1]
    · by_cases h2 : hGet s.holdings u < tk
      · simp only [step, sellOp, if_neg h1, if_pos h2]
      · simp only [step, sellOp, if_neg h1, if_neg h2]
  | createOffer u ppt a =>
    by_cases h1 : ppt ≤ 0 ∨ a ≤ 0
    · simp only [step, createOfferOp, if_pos h1]
    · by_cases h2 : hGet s.holdings u < a
      · simp only [step, createOfferOp, if_neg h1, if_pos h2]
      · simp only [step, createOfferOp, if_neg h1, if_neg h2]
        exact get?_append_left s.offers i _ hi
  | fill u j a =>
    have hij : i ≠ j := by
      intro hh
      exact hnf u a (by rw [hh])
    rcases heq : s.offers.get? j with _ | offer
    · simp only [step, fillOp, heq]
    · by_cases h2 : offer.status ≠ OfferStatus.opened ∨ offer.amount ≤ 0
      · simp only [step, fillOp, heq, if_pos h2]
      · by_cases h3 : min offer.amount a ≤ 0
        · simp only [step, fillOp, heq, if_neg h2, if_pos h3]
        · simp only [step, fillOp, heq, if_neg h2, if_neg h3]
          exact get?_set_ne s.offers i j _ hij

/-- C10 amended-claim witness: a buy operation leaves the listed offer of
the concrete escrow state untouched. -/
theorem claim_C10_escrow_only_fill_witness :
    0 < (createOfferOp "alice" 1 5 (createProject "alice" "p")).1.offers.length ∧
    (∀ (u : String) (a : ℕ), Op.buy "bob" 2 ≠ Op.fill u 0 a) ∧
    (step (createOfferOp "alice" 1 5 (createProject "alice" "p")).1
        (Op.buy "bob" 2)).offers.get? 0
      = (createOfferOp "alice" 1 5 (createProject "alice" "p")).1.offers.get? 0 := by
  have hi : 0 < (createOfferOp "alice" 1 5 (createProject "alice" "p")).1.offers.length := by
    norm_num [createOfferOp, createProject, hGet, hSet]
  have hnf : ∀ (u : String) (a : ℕ), Op.buy "bob" 2 ≠ Op.fill u 0 a := by
    intro u a hh
    exact Op.noConfusion hh
  exact ⟨hi, hnf,
    claim_C10_escrow_only_fill (createOfferOp "alice" 1 5 (createProject "alice" "p")).1
      (Op.buy "bob" 2) 0 hi hnf⟩

end UnicornFactory
